import Mathlib

/-!
Shallow embedding of the invoice aggregation core of `src/main.py`
(`aggregate_sales`, lines 39-120).

Modelling decisions:
* JSON values arriving from `request.json()` are modelled by `JVal`
  (null, bool, int, float, string, array, object with string keys).
* Python floats are idealised as exact rationals (`ℚ`); IEEE-754 binary
  artefacts are out of scope, as are the `inf`/`nan` float-literal
  strings, which `floatOfString` leaves unparsed.
* Exceptions are modelled by `Except PyErr`: the explicit
  `HTTPException(400)` on a non-list body is `PyErr.badRequest`; the
  `TypeError`/`ValueError`/`AttributeError` that Python raises for
  ill-shaped values are the other constructors.  The `try`/`except
  (TypeError, ValueError)` around the price/quantity conversions is the
  only handler in the source and is reproduced in `procItem`.
* Python dicts are insertion-ordered association lists; `defaultdict`
  accumulation `dd[k] += r` is `ddAdd` (update in place if the key is
  present, append otherwise; a list or dict key is unhashable and raises
  `TypeError`).
* `sorted(..., key=lambda x: x[1], reverse=True)` is Python's stable
  descending sort, embedded as the stable insertion sort `sortD`.
* `round(x, 2)` is round-half-to-even at two decimals, `round2`.
-/

/- Batteries marks the arithmetic on `Rat` `@[irreducible]`; re-allow
unfolding so that concrete runs of the embedded program evaluate. -/
attribute [local semireducible] Rat.add Rat.sub Rat.mul Rat.inv Rat.ofScientific

inductive PyErr where
  | badRequest
  | typeError
  | valueError
  | attributeError
deriving DecidableEq

/-- A JSON value as decoded by Python's `request.json()`. -/
inductive JVal where
  | null : JVal
  | bool : Bool → JVal
  | int : ℤ → JVal
  | float : ℚ → JVal
  | str : String → JVal
  | list : List JVal → JVal
  | obj : List (String × JVal) → JVal

/-- Python truthiness: `None`, `False`, zero, and empty containers are falsy. -/
def pyTruthy : JVal → Bool
  | .null => false
  | .bool b => b
  | .int n => n != 0
  | .float q => q != 0
  | .str s => !(s.isEmpty)
  | .list xs => !xs.isEmpty
  | .obj fs => !fs.isEmpty

/-- The numeric content of a value, when Python treats it as a number for
`==` purposes (`True == 1 == 1.0` in Python). -/
def jNum : JVal → Option ℚ
  | .bool b => some (if b then 1 else 0)
  | .int n => some (n : ℚ)
  | .float q => some q
  | _ => none

/-- Python `==` as exercised by this program.  Every comparison the code
performs has a string constant or a hashable dict key on one side, so
Python's elementwise container equality never arises; containers here
compare unequal to everything the program compares them with. -/
def pyEq (a b : JVal) : Bool :=
  match jNum a, jNum b with
  | some x, some y => x == y
  | some _, none => false
  | none, some _ => false
  | none, none =>
    match a, b with
    | .null, .null => true
    | .str s, .str t => s == t
    | _, _ => false

/-- Whether a value may be a dict key (lists and dicts are unhashable). -/
def hashable : JVal → Bool
  | .list _ => false
  | .obj _ => false
  | _ => true

/-- `needle` occurs as a contiguous substring of `hay` (Python `in` on strings). -/
def strContains (hay needle : List Char) : Bool :=
  (List.range (hay.length + 1)).any (fun i => needle.isPrefixOf (hay.drop i))

/-- Python `"items" in sale` (line 57): key test on dicts, element test on
lists, substring test on strings, `TypeError` otherwise. -/
def pyContainsItems : JVal → Except PyErr Bool
  | .obj fs => .ok (fs.any (fun f => f.1 == "items"))
  | .list xs => .ok (xs.any (fun x => pyEq (.str "items") x))
  | .str s => .ok (strContains s.data "items".data)
  | .null => .error .typeError
  | .bool _ => .error .typeError
  | .int _ => .error .typeError
  | .float _ => .error .typeError

/-- Python `for item in v` (line 62): lists yield elements, strings yield
one-character strings, dicts yield their keys, anything else raises. -/
def pyIter : JVal → Except PyErr (List JVal)
  | .list xs => .ok xs
  | .str s => .ok (s.data.map (fun c => .str (String.mk [c])))
  | .obj fs => .ok (fs.map (fun f => JVal.str f.1))
  | .null => .error .typeError
  | .bool _ => .error .typeError
  | .int _ => .error .typeError
  | .float _ => .error .typeError

/-- Python `d.get(k, default)` on a dict. -/
def objGet (fs : List (String × JVal)) (k : String) (d : JVal) : JVal :=
  match fs.find? (fun f => f.1 == k) with
  | some f => f.2
  | none => d

/-- Value of a digit string. -/
def digitsVal (ds : List Char) : ℕ :=
  ds.foldl (fun a c => a * 10 + (c.toNat - 48)) 0

/-- Exponent suffix of a Python float literal (empty, or `e`/`E`, optional
sign, digits). -/
def parseExpPart (cs : List Char) (mant : ℚ) : Option ℚ :=
  match cs with
  | [] => some mant
  | c :: t =>
    if c = 'e' ∨ c = 'E' then
      let st : ℤ × List Char :=
        match t with
        | '+' :: u => (1, u)
        | '-' :: u => (-1, u)
        | u => (1, u)
      let ed := st.2.takeWhile Char.isDigit
      if ed.isEmpty then none
      else if (st.2.dropWhile Char.isDigit).isEmpty then
        some (mant * (10 : ℚ) ^ (st.1 * (digitsVal ed : ℤ)))
      else none
    else none

/-- Python `float(s)` on a string: surrounding whitespace, optional sign,
`digits`, `digits.digits`, `.digits` or `digits.`, optional exponent.
(`inf`/`nan` literals and digit-group underscores are not representable
in the rational model and are left unparsed.) -/
def floatOfString (s : String) : Option ℚ :=
  let cs0 := ((s.data.dropWhile Char.isWhitespace).reverse.dropWhile Char.isWhitespace).reverse
  let sc : ℚ × List Char :=
    match cs0 with
    | '+' :: t => (1, t)
    | '-' :: t => (-1, t)
    | t => (1, t)
  let ip := sc.2.takeWhile Char.isDigit
  let r1 := sc.2.dropWhile Char.isDigit
  match r1 with
  | [] => if ip.isEmpty then none else some (sc.1 * (digitsVal ip : ℚ))
  | '.' :: r2 =>
    let fp := r2.takeWhile Char.isDigit
    let r3 := r2.dropWhile Char.isDigit
    if ip.isEmpty && fp.isEmpty then none
    else parseExpPart r3 (sc.1 * ((digitsVal ip : ℚ) + (digitsVal fp : ℚ) / (10 : ℚ) ^ fp.length))
  | _ => if ip.isEmpty then none else parseExpPart r1 (sc.1 * (digitsVal ip : ℚ))

/-- Python `int(s)` on a string: surrounding whitespace, optional sign,
nonempty digits, no decimal point. -/
def intOfString (s : String) : Option ℤ :=
  let cs0 := ((s.data.dropWhile Char.isWhitespace).reverse.dropWhile Char.isWhitespace).reverse
  let sc : ℤ × List Char :=
    match cs0 with
    | '+' :: t => (1, t)
    | '-' :: t => (-1, t)
    | t => (1, t)
  if sc.2.isEmpty then none
  else if sc.2.all Char.isDigit then some (sc.1 * (digitsVal sc.2 : ℤ))
  else none

/-- Truncation toward zero (Python `int()` applied to a float). -/
def truncQ (q : ℚ) : ℤ := if 0 ≤ q then ⌊q⌋ else ⌈q⌉

/-- Python `float(v)` (line 64): numbers and bools convert, numeric strings
parse (`ValueError` otherwise), everything else raises `TypeError`. -/
def pyFloat : JVal → Except PyErr ℚ
  | .int n => .ok (n : ℚ)
  | .float q => .ok q
  | .bool b => .ok (if b then 1 else 0)
  | .str s =>
    match floatOfString s with
    | some q => .ok q
    | none => .error .valueError
  | .null => .error .typeError
  | .list _ => .error .typeError
  | .obj _ => .error .typeError

/-- Python `int(v)` (line 65): ints and bools convert, floats truncate
toward zero, integer strings parse (`ValueError` otherwise), everything
else raises `TypeError`. -/
def pyInt : JVal → Except PyErr ℤ
  | .int n => .ok n
  | .float q => .ok (truncQ q)
  | .bool b => .ok (if b then 1 else 0)
  | .str s =>
    match intOfString s with
    | some n => .ok n
    | none => .error .valueError
  | .null => .error .typeError
  | .list _ => .error .typeError
  | .obj _ => .error .typeError

/-- `defaultdict(float)` update `dd[k] += r` on the association list `m`,
assuming `k` hashable: update in place if some key equals `k` under
Python `==`, append at the end otherwise. -/
def addToKey (k : JVal) (r : ℚ) : List (JVal × ℚ) → List (JVal × ℚ)
  | [] => [(k, r)]
  | p :: ps => if pyEq p.1 k then (p.1, p.2 + r) :: ps else p :: addToKey k r ps

/-- `dd[k] += r` (lines 71 and 79): unhashable keys raise `TypeError`. -/
def ddAdd (m : List (JVal × ℚ)) (k : JVal) (r : ℚ) : Except PyErr (List (JVal × ℚ)) :=
  if hashable k then .ok (addToKey k r m) else .error .typeError

/-- Sum of the values of a revenue map. -/
def sumVals (m : List (JVal × ℚ)) : ℚ := (m.map (fun p => p.2)).sum

/-- The keys of a revenue map are pairwise distinct under Python `==`. -/
def NoDupKeys (m : List (JVal × ℚ)) : Prop :=
  m.Pairwise (fun p q => pyEq p.1 q.1 = false)

/-- The accumulator of the aggregation loop (lines 46-53). -/
structure AggState where
  invoice_count : ℕ
  total_sales : ℚ
  online_sales : ℚ
  in_store_sales : ℚ
  coupon_orders : ℕ
  item_revenue : List (JVal × ℚ)
  store_revenue : List (JVal × ℚ)

def initState : AggState := ⟨0, 0, 0, 0, 0, [], []⟩

/-- Body of the item loop (lines 62-71): convert price then quantity inside
`try`; `TypeError`/`ValueError` there means `continue`; then accumulate
`price * quantity` into the sale total and into `item_revenue` keyed by
the item's name (an unhashable name raises outside the handler).  A
non-dict item raises `AttributeError` at `.get`, which is not handled. -/
def procItem (acc : ℚ × List (JVal × ℚ)) (item : JVal) : Except PyErr (ℚ × List (JVal × ℚ)) :=
  match item with
  | .obj fs =>
    match pyFloat (objGet fs "price" (.int 0)), pyInt (objGet fs "quantity" (.int 0)) with
    | .ok p, .ok q =>
      match ddAdd acc.2 (objGet fs "name" (.str "unknown")) (p * (q : ℚ)) with
      | .ok rm => .ok (acc.1 + p * (q : ℚ), rm)
      | .error e => .error e
    | _, _ => .ok acc
  | _ => .error .attributeError

/-- Body of the sale loop after the truthiness and `"items"` membership
guards passed (lines 60-87).  `sale.get` requires a dict
(`AttributeError` otherwise); the items are iterated accumulating the
sale total and `item_revenue`; a sale total `≤ 0` is dropped after that
accumulation; otherwise the invoice is counted and all per-sale sums and
`store_revenue` are updated. -/
def procSaleBody (st : AggState) (sale : JVal) : Except PyErr AggState :=
  match sale with
  | .obj fs =>
    match pyIter (objGet fs "items" (.list [])) with
    | .error e => .error e
    | .ok items =>
      match items.foldlM procItem (0, st.item_revenue) with
      | .error e => .error e
      | .ok tr =>
        if tr.1 ≤ 0 then .ok { st with item_revenue := tr.2 }
        else
          match ddAdd st.store_revenue (objGet fs "storeLocation" (.str "unknown")) tr.1 with
          | .error e => .error e
          | .ok srev =>
            .ok { invoice_count := st.invoice_count + 1
                  total_sales := st.total_sales + tr.1
                  online_sales :=
                    if pyEq (objGet fs "purchaseMethod" JVal.null) (.str "Online")
                    then st.online_sales + tr.1 else st.online_sales
                  in_store_sales :=
                    if pyEq (objGet fs "purchaseMethod" JVal.null) (.str "Online")
                    then st.in_store_sales else st.in_store_sales + tr.1
                  coupon_orders :=
                    if pyTruthy (objGet fs "couponUsed" JVal.null)
                    then st.coupon_orders + 1 else st.coupon_orders
                  item_revenue := tr.2
                  store_revenue := srev }
  | _ => .error .attributeError

/-- One iteration of the sale loop (lines 56-87): `continue` on a falsy
sale or one without `"items"`, otherwise run the body. -/
def procSale (st : AggState) (sale : JVal) : Except PyErr AggState :=
  if pyTruthy sale then
    match pyContainsItems sale with
    | .error e => .error e
    | .ok true => procSaleBody st sale
    | .ok false => .ok st
  else .ok st

/-- `max(iterable, key=f)` keeps the first element whose key is strictly
greater than the current best, so ties go to the earliest element. -/
def maxStep (a q : JVal × ℚ) : JVal × ℚ := if a.2 < q.2 then q else a

/-- `max(store_revenue, key=store_revenue.get)` (line 97): `none` on an
empty dict (the code guards that case with the sentinel). -/
def pyMaxKey : List (JVal × ℚ) → Option JVal
  | [] => none
  | h :: t => some ((t.foldl maxStep h).1)

/-- Stable insertion into a descending-by-revenue list: the inserted entry
comes from earlier in the original order, so it goes before entries with
an equal revenue. -/
def insertD (p : JVal × ℚ) : List (JVal × ℚ) → List (JVal × ℚ)
  | [] => [p]
  | q :: qs => if p.2 < q.2 then q :: insertD p qs else p :: q :: qs

/-- Python's stable `sorted(..., key=lambda x: x[1], reverse=True)`
(lines 90-94, before the `[:3]`). -/
def sortD : List (JVal × ℚ) → List (JVal × ℚ)
  | [] => []
  | x :: xs => insertD x (sortD xs)

/-- Round-half-to-even to an integer. -/
def rhe (q : ℚ) : ℤ :=
  if Int.fract q < 1/2 then ⌊q⌋
  else if 1/2 < Int.fract q then ⌊q⌋ + 1
  else if Even ⌊q⌋ then ⌊q⌋ else ⌊q⌋ + 1

/-- Python `round(x, 2)` in the rational model. -/
def round2 (q : ℚ) : ℚ := ((rhe (q * 100) : ℚ)) / 100

/-- The JSON response of the endpoint (lines 102-120). -/
structure Summary where
  invoice_count : ℕ
  total_sales : ℚ
  average_invoice_value : ℚ
  online_sales : ℚ
  in_store_sales : ℚ
  coupon_orders : ℕ
  top_store : JVal
  top_items : List (JVal × ℚ)

/-- Post-pass of the aggregation (lines 90-120): top-3 items by stable
descending sort on revenue, top store by `max` with the
`"data not available"` sentinel on an empty `store_revenue`, and the
rounded monetary outputs. -/
def mkSummary (st : AggState) : Summary where
  invoice_count := st.invoice_count
  total_sales := round2 st.total_sales
  average_invoice_value :=
    if 0 < st.invoice_count then round2 (st.total_sales / (st.invoice_count : ℚ)) else 0
  online_sales := round2 st.online_sales
  in_store_sales := round2 st.in_store_sales
  coupon_orders := st.coupon_orders
  top_store :=
    match pyMaxKey st.store_revenue with
    | some k => k
    | none => .str "data not available"
  top_items := ((sortD st.item_revenue).take 3).map (fun p => (p.1, round2 p.2))

/-- The aggregation loop on an already-validated list of sales. -/
def runSales (sales : List JVal) (st : AggState) : Except PyErr AggState :=
  sales.foldlM procSale st

/-- The core of the endpoint on the decoded body: reject non-lists with
the 400 `HTTPException` (lines 39-43), otherwise run the loop. -/
def runAggregate (body : JVal) : Except PyErr AggState :=
  match body with
  | .list sales => runSales sales initState
  | _ => .error .badRequest

/-- `aggregate_sales` (lines 39-120): validation, aggregation loop, and
response building. -/
def aggregate_sales (body : JVal) : Except PyErr Summary :=
  match runAggregate body with
  | .ok st => .ok (mkSummary st)
  | .error e => .error e

/-! ### Generic reasoning about `foldlM` in the `Except` monad -/

theorem foldlM_except_nil {σ α : Type} (f : σ → α → Except PyErr σ) (st : σ) :
    ([] : List α).foldlM f st = .ok st := rfl

theorem foldlM_except_cons_ok {σ α : Type} {f : σ → α → Except PyErr σ} {a : α}
    {st s : σ} (l : List α) (h : f st a = .ok s) :
    (a :: l).foldlM f st = l.foldlM f s := by
  rw [List.foldlM_cons, h]; rfl

theorem foldlM_except_cons_err {σ α : Type} {f : σ → α → Except PyErr σ} {a : α}
    {st : σ} {e : PyErr} (l : List α) (h : f st a = .error e) :
    (a :: l).foldlM f st = .error e := by
  rw [List.foldlM_cons, h]; rfl

/-- An invariant preserved by every successful step of a fold survives a
successful run of the fold. -/
theorem foldlM_ok_inv {σ α : Type} (f : σ → α → Except PyErr σ) (P : σ → Prop)
    (l : List α) :
    (∀ st a, a ∈ l → ∀ st', f st a = .ok st' → P st → P st') →
      ∀ st st', l.foldlM f st = .ok st' → P st → P st' := by
  induction l with
  | nil =>
    intro _ st st' h hp
    rw [foldlM_except_nil] at h
    cases h
    exact hp
  | cons a t ih =>
    intro hstep st st' h hp
    cases hfa : f st a with
    | error e =>
      rw [foldlM_except_cons_err t hfa] at h
      exact Except.noConfusion h
    | ok s1 =>
      rw [foldlM_except_cons_ok t hfa] at h
      exact ih (fun st a' ha' => hstep st a' (List.mem_cons_of_mem _ ha')) s1 st' h
        (hstep st a (List.mem_cons_self a t) s1 hfa hp)

/-- An element on which the step function is the identity can be removed
from a fold without changing its result. -/
theorem foldlM_skip {σ α : Type} (f : σ → α → Except PyErr σ) (x : α)
    (hx : ∀ st, f st x = .ok st) (l₁ l₂ : List α) :
    ∀ st, (l₁ ++ x :: l₂).foldlM f st = (l₁ ++ l₂).foldlM f st := by
  induction l₁ with
  | nil =>
    intro st
    simp only [List.nil_append]
    rw [foldlM_except_cons_ok l₂ (hx st)]
  | cons a t ih =>
    intro st
    simp only [List.cons_append]
    cases hfa : f st a with
    | error e => rw [foldlM_except_cons_err _ hfa, foldlM_except_cons_err _ hfa]
    | ok s1 => rw [foldlM_except_cons_ok _ hfa, foldlM_except_cons_ok _ hfa]; exact ih s1

/-! ### Lemmas about the `defaultdict` accumulation -/

theorem sumVals_nil : sumVals [] = 0 := rfl

theorem sumVals_cons (p : JVal × ℚ) (m : List (JVal × ℚ)) :
    sumVals (p :: m) = p.2 + sumVals m := by
  simp [sumVals]

theorem sumVals_addToKey (k : JVal) (r : ℚ) (m : List (JVal × ℚ)) :
    sumVals (addToKey k r m) = sumVals m + r := by
  induction m with
  | nil => simp [addToKey, sumVals]
  | cons p ps ih =>
    cases hk : pyEq p.1 k with
    | true =>
      simp only [addToKey, hk, if_true, sumVals_cons]
      ring
    | false =>
      simp only [addToKey, hk, Bool.false_eq_true, if_false, sumVals_cons, ih]
      ring

theorem addToKey_ne_nil (k : JVal) (r : ℚ) (m : List (JVal × ℚ)) :
    addToKey k r m ≠ [] := by
  cases m with
  | nil => simp [addToKey]
  | cons p ps =>
    cases hk : pyEq p.1 k with
    | true => simp [addToKey, hk]
    | false => simp [addToKey, hk]

theorem addToKey_keys (k : JVal) (r : ℚ) (m : List (JVal × ℚ)) :
    ∀ q ∈ addToKey k r m, q.1 = k ∨ ∃ q' ∈ m, q.1 = q'.1 := by
  induction m with
  | nil =>
    intro q hq
    simp [addToKey] at hq
    exact Or.inl (by rw [hq])
  | cons p ps ih =>
    intro q hq
    cases hk : pyEq p.1 k with
    | true =>
      rw [addToKey, if_pos (by rw [hk])] at hq
      rcases List.mem_cons.mp hq with hq1 | hq2
      · exact Or.inr ⟨p, List.mem_cons_self p ps, by rw [hq1]⟩
      · exact Or.inr ⟨q, List.mem_cons_of_mem _ hq2, rfl⟩
    | false =>
      rw [addToKey, if_neg (by rw [hk]; exact Bool.false_ne_true)] at hq
      rcases List.mem_cons.mp hq with hq1 | hq2
      · exact Or.inr ⟨p, List.mem_cons_self p ps, by rw [hq1]⟩
      · rcases ih q hq2 with h1 | ⟨q', hq', he⟩
        · exact Or.inl h1
        · exact Or.inr ⟨q', List.mem_cons_of_mem _ hq', he⟩

theorem noDupKeys_addToKey (k : JVal) (r : ℚ) (m : List (JVal × ℚ))
    (h : NoDupKeys m) : NoDupKeys (addToKey k r m) := by
  induction m with
  | nil =>
    simp [addToKey, NoDupKeys]
  | cons p ps ih =>
    rw [NoDupKeys, List.pairwise_cons] at h
    cases hk : pyEq p.1 k with
    | true =>
      rw [NoDupKeys, addToKey, if_pos (by rw [hk]), List.pairwise_cons]
      exact ⟨fun q hq => h.1 q hq, h.2⟩
    | false =>
      rw [NoDupKeys, addToKey, if_neg (by rw [hk]; exact Bool.false_ne_true),
        List.pairwise_cons]
      refine ⟨fun q hq => ?_, ih h.2⟩
      rcases addToKey_keys k r ps q hq with h1 | ⟨q', hq', he⟩
      · rw [h1]; exact hk
      · rw [he]; exact h.1 q' hq'

/-! ### Structural analysis of one sale-loop iteration -/

/-- A successful `procSale` step either leaves the state unchanged
(skipped sale), replaces only `item_revenue` (sale total `≤ 0`), or
performs the full counted-sale update. -/
theorem procSale_ok_cases (st st' : AggState) (s : JVal)
    (h : procSale st s = .ok st') :
    st' = st ∨
    ∃ (items : List JVal) (tot : ℚ) (irev : List (JVal × ℚ)),
      List.foldlM procItem (0, st.item_revenue) items = Except.ok (tot, irev) ∧
      ((tot ≤ 0 ∧ st' = { st with item_revenue := irev }) ∨
       (0 < tot ∧ ∃ (k : JVal) (ob cb : Bool),
         st' = { invoice_count := st.invoice_count + 1
                 total_sales := st.total_sales + tot
                 online_sales := if ob = true then st.online_sales + tot else st.online_sales
                 in_store_sales := if ob = true then st.in_store_sales else st.in_store_sales + tot
                 coupon_orders := if cb = true then st.coupon_orders + 1 else st.coupon_orders
                 item_revenue := irev
                 store_revenue := addToKey k tot st.store_revenue })) := by
  rw [procSale] at h
  split at h
  case isFalse =>
    injection h with hh
    exact Or.inl hh.symm
  case isTrue ht =>
    split at h
    case h_1 e heq => exact Except.noConfusion h
    case h_3 heq =>
      injection h with hh
      exact Or.inl hh.symm
    case h_2 heq =>
      cases s with
      | obj fs =>
        rw [procSaleBody] at h
        split at h
        case h_1 e hiter => exact Except.noConfusion h
        case h_2 items hiter =>
          split at h
          case h_1 e hfold => exact Except.noConfusion h
          case h_2 tr hfold =>
            split at h
            case isTrue hle =>
              injection h with hh
              exact Or.inr ⟨items, tr.1, tr.2, hfold, Or.inl ⟨hle, hh.symm⟩⟩
            case isFalse hle =>
              split at h
              case h_1 e hdd => exact Except.noConfusion h
              case h_2 srev hdd =>
                injection h with hh
                rw [ddAdd] at hdd
                split at hdd
                case isTrue hh2 =>
                  injection hdd with hdd2
                  refine Or.inr ⟨items, tr.1, tr.2, hfold,
                    Or.inr ⟨lt_of_not_le hle,
                      objGet fs "storeLocation" (.str "unknown"),
                      pyEq (objGet fs "purchaseMethod" JVal.null) (.str "Online"),
                      pyTruthy (objGet fs "couponUsed" JVal.null), ?_⟩⟩
                  rw [← hh, ← hdd2]
                case isFalse hh2 => exact Except.noConfusion hdd
      | null => exact Except.noConfusion h
      | bool b2 => exact Except.noConfusion h
      | int n => exact Except.noConfusion h
      | float q => exact Except.noConfusion h
      | str s2 => exact Except.noConfusion h
      | list xs => exact Except.noConfusion h

/-! ### Invariants preserved by the aggregation loop -/

theorem procItem_ndk (acc tr : ℚ × List (JVal × ℚ)) (it : JVal)
    (h : procItem acc it = .ok tr) (hd : NoDupKeys acc.2) : NoDupKeys tr.2 := by
  cases it with
  | obj fs =>
    rw [procItem] at h
    split at h
    case h_1 p q hp hq =>
      split at h
      case h_1 rm hdd =>
        injection h with hh
        rw [ddAdd] at hdd
        split at hdd
        case isTrue => injection hdd with hdd2; rw [← hh, ← hdd2]; exact noDupKeys_addToKey _ _ _ hd
        case isFalse => exact Except.noConfusion hdd
      case h_2 e hdd => exact Except.noConfusion h
    case h_2 hne =>
      injection h with hh
      rw [← hh]
      exact hd
  | null => exact Except.noConfusion h
  | bool b => exact Except.noConfusion h
  | int n => exact Except.noConfusion h
  | float q => exact Except.noConfusion h
  | str s => exact Except.noConfusion h
  | list xs => exact Except.noConfusion h

theorem itemsFold_ndk (items : List JVal) (t0 : ℚ) (rm0 : List (JVal × ℚ))
    (tr : ℚ × List (JVal × ℚ)) (h : List.foldlM procItem (t0, rm0) items = .ok tr)
    (hd : NoDupKeys rm0) : NoDupKeys tr.2 :=
  foldlM_ok_inv procItem (fun x => NoDupKeys x.2) items
    (fun a b _ c hab => procItem_ndk a c b hab) (t0, rm0) tr h hd

/-- `procSale` preserves `total_sales = online_sales + in_store_sales`. -/
theorem procSale_total_split (st st' : AggState) (s : JVal)
    (h : procSale st s = .ok st')
    (hs : st.total_sales = st.online_sales + st.in_store_sales) :
    st'.total_sales = st'.online_sales + st'.in_store_sales := by
  rcases procSale_ok_cases st st' s h with h1 | ⟨items, tot, irev, hf, ⟨_, h2⟩ | ⟨_, k, ob, cb, h3⟩⟩
  · rw [h1]; exact hs
  · rw [h2]; exact hs
  · rw [h3]; cases ob <;> simp <;> linarith

/-- `procSale` preserves "`store_revenue` is empty iff no invoice counted". -/
theorem procSale_store_count (st st' : AggState) (s : JVal)
    (h : procSale st s = .ok st')
    (hs : st.store_revenue = [] ↔ st.invoice_count = 0) :
    st'.store_revenue = [] ↔ st'.invoice_count = 0 := by
  rcases procSale_ok_cases st st' s h with h1 | ⟨items, tot, irev, hf, ⟨_, h2⟩ | ⟨_, k, ob, cb, h3⟩⟩
  · rw [h1]; exact hs
  · rw [h2]; exact hs
  · rw [h3]
    constructor
    · intro hempty; exact absurd hempty (addToKey_ne_nil _ _ _)
    · intro hz; exact absurd hz (Nat.succ_ne_zero _)

/-- `procSale` preserves distinctness of `item_revenue` keys. -/
theorem procSale_ndk (st st' : AggState) (s : JVal)
    (h : procSale st s = .ok st')
    (hs : NoDupKeys st.item_revenue) : NoDupKeys st'.item_revenue := by
  rcases procSale_ok_cases st st' s h with h1 | ⟨items, tot, irev, hf, ⟨_, h2⟩ | ⟨_, k, ob, cb, h3⟩⟩
  · rw [h1]; exact hs
  · rw [h2]; exact itemsFold_ndk items 0 st.item_revenue (tot, irev) hf hs
  · rw [h3]; exact itemsFold_ndk items 0 st.item_revenue (tot, irev) hf hs

theorem runSales_total_split (sales : List JVal) (st st' : AggState)
    (h : runSales sales st = .ok st')
    (hs : st.total_sales = st.online_sales + st.in_store_sales) :
    st'.total_sales = st'.online_sales + st'.in_store_sales :=
  foldlM_ok_inv procSale (fun x => x.total_sales = x.online_sales + x.in_store_sales)
    sales (fun a b _ c hab => procSale_total_split a c b hab) st st' h hs

theorem runSales_store_count (sales : List JVal) (st st' : AggState)
    (h : runSales sales st = .ok st')
    (hs : st.store_revenue = [] ↔ st.invoice_count = 0) :
    st'.store_revenue = [] ↔ st'.invoice_count = 0 :=
  foldlM_ok_inv procSale (fun x => x.store_revenue = [] ↔ x.invoice_count = 0)
    sales (fun a b _ c hab => procSale_store_count a c b hab) st st' h hs

theorem runSales_ndk (sales : List JVal) (st st' : AggState)
    (h : runSales sales st = .ok st')
    (hs : NoDupKeys st.item_revenue) : NoDupKeys st'.item_revenue :=
  foldlM_ok_inv procSale (fun x => NoDupKeys x.item_revenue)
    sales (fun a b _ c hab => procSale_ndk a c b hab) st st' h hs

/-! ### Pure redescriptions of the per-sale computation -/

/-- The revenue the code attributes to one item: `price * quantity` when
both conversions succeed, `0` (the item is skipped) otherwise. -/
def itemRev (item : JVal) : ℚ :=
  match item with
  | .obj fs =>
    match pyFloat (objGet fs "price" (.int 0)), pyInt (objGet fs "quantity" (.int 0)) with
    | .ok p, .ok q => p * (q : ℚ)
    | _, _ => 0
  | _ => 0

/-- The list of items of a sale when it is a dict whose `items` value is a
list (empty otherwise). -/
def saleItems (sale : JVal) : List JVal :=
  match sale with
  | .obj fs =>
    match objGet fs "items" (.list []) with
    | .list xs => xs
    | _ => []
  | _ => []

/-- The computed total of a sale: the sum of its items' revenues. -/
def saleTotal (sale : JVal) : ℚ := ((saleItems sale).map itemRev).sum

/-- The sale has the `items` key. -/
def hasItemsKey (sale : JVal) : Bool :=
  match sale with
  | .obj fs => fs.any (fun f => f.1 == "items")
  | _ => false

/-- The filtering predicate of the claims: a non-empty `items` field and a
strictly positive computed total. -/
def counted (sale : JVal) : Bool :=
  !(saleItems sale).isEmpty && decide (0 < saleTotal sale)

/-- A well-shaped item: a dict whose `name` (defaulting to `"unknown"`) is
hashable.  Its `price` and `quantity` may still be arbitrary. -/
def wfItem (it : JVal) : Bool :=
  match it with
  | .obj fs => hashable (objGet fs "name" (.str "unknown"))
  | _ => false

/-- A well-shaped sale record: a dict whose `items` value (when the key is
present) is a list of well-shaped items, and whose `storeLocation`
(defaulting to `"unknown"`) is hashable. -/
def wfSale (s : JVal) : Bool :=
  match s with
  | .obj fs =>
    (!(fs.any (fun f => f.1 == "items")) ||
      (match objGet fs "items" (.list []) with
       | .list xs => xs.all wfItem
       | _ => false)) &&
    hashable (objGet fs "storeLocation" (.str "unknown"))
  | _ => false

def isList : JVal → Bool
  | .list _ => true
  | _ => false

theorem sum_pos_ne_nil (xs : List JVal) (h : 0 < (xs.map itemRev).sum) : xs ≠ [] := by
  intro hnil
  rw [hnil] at h
  simp at h

/-! ### The item loop -/

/-- An item whose price or quantity conversion raises inside the `try` is
skipped: the accumulator is untouched and its revenue is `0`. -/
theorem procItem_skip (fs : List (String × JVal)) (acc : ℚ × List (JVal × ℚ))
    (h : (∃ e, pyFloat (objGet fs "price" (.int 0)) = .error e) ∨
         (∃ e, pyInt (objGet fs "quantity" (.int 0)) = .error e)) :
    procItem acc (.obj fs) = .ok acc ∧ itemRev (.obj fs) = 0 := by
  cases hp : pyFloat (objGet fs "price" (.int 0)) with
  | ok p =>
    cases hq : pyInt (objGet fs "quantity" (.int 0)) with
    | ok q =>
      rcases h with ⟨e, he⟩ | ⟨e, he⟩
      · rw [he] at hp; exact Except.noConfusion hp
      · rw [he] at hq; exact Except.noConfusion hq
    | error e => exact ⟨by simp only [procItem, hp, hq], by simp only [itemRev, hp, hq]⟩
  | error e =>
    cases hq : pyInt (objGet fs "quantity" (.int 0)) with
    | ok q => exact ⟨by simp only [procItem, hp, hq], by simp only [itemRev, hp, hq]⟩
    | error e2 => exact ⟨by simp only [procItem, hp, hq], by simp only [itemRev, hp, hq]⟩

/-- A successfully converting item adds `price * quantity` to the sale
total and to `item_revenue` under its name. -/
theorem procItem_add (fs : List (String × JVal)) (acc : ℚ × List (JVal × ℚ))
    (p : ℚ) (q : ℤ)
    (hp : pyFloat (objGet fs "price" (.int 0)) = .ok p)
    (hq : pyInt (objGet fs "quantity" (.int 0)) = .ok q)
    (hname : hashable (objGet fs "name" (.str "unknown")) = true) :
    procItem acc (.obj fs) =
      .ok (acc.1 + p * (q : ℚ), addToKey (objGet fs "name" (.str "unknown")) (p * (q : ℚ)) acc.2) ∧
    itemRev (.obj fs) = p * (q : ℚ) := by
  constructor
  · simp only [procItem, hp, hq]
    rw [ddAdd, if_pos hname]
  · simp only [itemRev, hp, hq]

theorem procItems_wf (items : List JVal) (hwf : ∀ it ∈ items, wfItem it = true) :
    ∀ (t : ℚ) (rm : List (JVal × ℚ)), ∃ rm',
      List.foldlM procItem (t, rm) items = .ok (t + (items.map itemRev).sum, rm') ∧
      sumVals rm' = sumVals rm + (items.map itemRev).sum := by
  induction items with
  | nil =>
    intro t rm
    refine ⟨rm, ?_, by simp⟩
    simp only [List.map_nil, List.sum_nil, add_zero]
    rfl
  | cons it its ih =>
    intro t rm
    have hit : wfItem it = true := hwf it (List.mem_cons_self it its)
    cases it with
    | obj fs =>
      have hname : hashable (objGet fs "name" (.str "unknown")) = true := hit
      have hrest := ih (fun x hx => hwf x (List.mem_cons_of_mem _ hx))
      cases hp : pyFloat (objGet fs "price" (.int 0)) with
      | ok p =>
        cases hq : pyInt (objGet fs "quantity" (.int 0)) with
        | ok q =>
          obtain ⟨hstep, hrev⟩ := procItem_add fs (t, rm) p q hp hq hname
          obtain ⟨rm', hfold, hsum⟩ :=
            hrest (t + p * (q : ℚ)) (addToKey (objGet fs "name" (.str "unknown")) (p * (q : ℚ)) rm)
          refine ⟨rm', ?_, ?_⟩
          · rw [foldlM_except_cons_ok its hstep, hfold, List.map_cons, List.sum_cons, hrev]
            congr 1
            ring
          · rw [hsum, sumVals_addToKey, List.map_cons, List.sum_cons, hrev]
            ring
        | error e =>
          obtain ⟨hstep, hrev⟩ := procItem_skip fs (t, rm) (Or.inr ⟨e, hq⟩)
          obtain ⟨rm', hfold, hsum⟩ := hrest t rm
          refine ⟨rm', ?_, ?_⟩
          · rw [foldlM_except_cons_ok its hstep, hfold, List.map_cons, List.sum_cons, hrev]
            congr 1
            ring
          · rw [hsum, List.map_cons, List.sum_cons, hrev]
            ring
      | error e =>
        obtain ⟨hstep, hrev⟩ := procItem_skip fs (t, rm) (Or.inl ⟨e, hp⟩)
        obtain ⟨rm', hfold, hsum⟩ := hrest t rm
        refine ⟨rm', ?_, ?_⟩
        · rw [foldlM_except_cons_ok its hstep, hfold, List.map_cons, List.sum_cons, hrev]
          congr 1
          ring
        · rw [hsum, List.map_cons, List.sum_cons, hrev]
          ring
    | null => exact absurd hit (by simp [wfItem])
    | bool b => exact absurd hit (by simp [wfItem])
    | int n => exact absurd hit (by simp [wfItem])
    | float q => exact absurd hit (by simp [wfItem])
    | str s => exact absurd hit (by simp [wfItem])
    | list xs => exact absurd hit (by simp [wfItem])

/-! ### One sale-loop iteration on a well-shaped sale -/

theorem procSale_wf (s : JVal) (hwf : wfSale s = true) (st : AggState) :
    ∃ st', procSale st s = .ok st' ∧
      st'.invoice_count = st.invoice_count + (if counted s then 1 else 0) ∧
      (counted s = true →
        st'.total_sales = st.total_sales + saleTotal s ∧
        sumVals st'.item_revenue = sumVals st.item_revenue + saleTotal s) := by
  cases s with
  | obj fs =>
    rw [wfSale, Bool.and_eq_true] at hwf
    obtain ⟨hab, hstore⟩ := hwf
    cases hkey : fs.any (fun f => f.1 == "items") with
    | false =>
      have hfind : fs.find? (fun f => f.1 == "items") = none := by
        rw [List.find?_eq_none]
        intro x hx hcontra
        have hany : fs.any (fun f => f.1 == "items") = true :=
          List.any_eq_true.mpr ⟨x, hx, hcontra⟩
        rw [hkey] at hany
        exact Bool.false_ne_true hany
      have hsi : saleItems (.obj fs) = [] := by
        simp only [saleItems, objGet, hfind]
      have hcnt : counted (.obj fs) = false := by
        simp [counted, hsi]
      have hps : procSale st (.obj fs) = .ok st := by
        rw [procSale]
        cases hfe : fs.isEmpty with
        | true =>
          rw [if_neg]
          simp [pyTruthy, hfe]
        | false =>
          rw [if_pos (by simp [pyTruthy, hfe])]
          simp only [pyContainsItems, hkey]
      refine ⟨st, hps, by rw [hcnt]; simp, fun h => ?_⟩
      rw [hcnt] at h
      exact absurd h Bool.false_ne_true
    | true =>
      have htrue : pyTruthy (.obj fs) = true := by
        rw [pyTruthy]
        cases fs with
        | nil => simp at hkey
        | cons a l => rfl
      have hB : (match objGet fs "items" (.list []) with
                 | .list xs => xs.all wfItem
                 | _ => false) = true := by
        rw [hkey] at hab
        simpa using hab
      cases hval : objGet fs "items" (.list []) with
      | list xs =>
        rw [hval] at hB
        have hiter : pyIter (objGet fs "items" (.list [])) = .ok xs := by
          rw [hval]
          rfl
        obtain ⟨rm', hfold, hsum⟩ :=
          procItems_wf xs (fun it hit => List.all_eq_true.mp hB it hit) 0 st.item_revenue
        rw [zero_add] at hfold
        have hsi : saleItems (.obj fs) = xs := by
          simp only [saleItems, hval]
        have hst2 : saleTotal (.obj fs) = (xs.map itemRev).sum := by
          rw [saleTotal, hsi]
        have hps : procSale st (.obj fs) = procSaleBody st (.obj fs) := by
          rw [procSale, if_pos htrue]
          simp only [pyContainsItems, hkey]
        by_cases hle : (xs.map itemRev).sum ≤ 0
        · have hcnt : counted (.obj fs) = false := by
            simp [counted, hst2, not_lt.mpr hle]
          have hbody : procSaleBody st (.obj fs) = .ok { st with item_revenue := rm' } := by
            simp only [procSaleBody, hiter, hfold]
            rw [if_pos hle]
          refine ⟨{ st with item_revenue := rm' }, by rw [hps, hbody], by rw [hcnt]; simp, fun h => ?_⟩
          rw [hcnt] at h
          exact absurd h Bool.false_ne_true
        · have hpos : 0 < (xs.map itemRev).sum := lt_of_not_le hle
          have hxne : xs ≠ [] := sum_pos_ne_nil xs hpos
          have hcnt : counted (.obj fs) = true := by
            simp [counted, hst2, hpos, hsi, hxne]
          have hbody : procSaleBody st (.obj fs) =
              .ok { invoice_count := st.invoice_count + 1
                    total_sales := st.total_sales + (xs.map itemRev).sum
                    online_sales :=
                      if pyEq (objGet fs "purchaseMethod" JVal.null) (.str "Online")
                      then st.online_sales + (xs.map itemRev).sum else st.online_sales
                    in_store_sales :=
                      if pyEq (objGet fs "purchaseMethod" JVal.null) (.str "Online")
                      then st.in_store_sales else st.in_store_sales + (xs.map itemRev).sum
                    coupon_orders :=
                      if pyTruthy (objGet fs "couponUsed" JVal.null)
                      then st.coupon_orders + 1 else st.coupon_orders
                    item_revenue := rm'
                    store_revenue := addToKey (objGet fs "storeLocation" (.str "unknown"))
                      ((xs.map itemRev).sum) st.store_revenue } := by
            simp only [procSaleBody, hiter, hfold]
            rw [if_neg (not_le.mpr hpos), ddAdd, if_pos hstore]
          refine ⟨_, by rw [hps, hbody], ?_, fun _ => ⟨?_, ?_⟩⟩
          · rw [hcnt]
            simp
          · rw [hst2]
          · rw [hst2]
            exact hsum
      | null => rw [hval] at hB; exact absurd hB Bool.false_ne_true
      | bool b => rw [hval] at hB; exact absurd hB Bool.false_ne_true
      | int n => rw [hval] at hB; exact absurd hB Bool.false_ne_true
      | float q => rw [hval] at hB; exact absurd hB Bool.false_ne_true
      | str s2 => rw [hval] at hB; exact absurd hB Bool.false_ne_true
      | obj fs2 => rw [hval] at hB; exact absurd hB Bool.false_ne_true
  | null => exact absurd hwf (by simp [wfSale])
  | bool b => exact absurd hwf (by simp [wfSale])
  | int n => exact absurd hwf (by simp [wfSale])
  | float q => exact absurd hwf (by simp [wfSale])
  | str s2 => exact absurd hwf (by simp [wfSale])
  | list xs => exact absurd hwf (by simp [wfSale])

/-! ### The sale loop on well-shaped input -/

theorem runSales_wf (sales : List JVal) :
    (∀ s ∈ sales, wfSale s = true) → ∀ st, ∃ st',
      runSales sales st = .ok st' ∧
      st'.invoice_count = st.invoice_count + sales.countP counted := by
  induction sales with
  | nil =>
    intro _ st
    exact ⟨st, rfl, by simp [List.countP_nil]⟩
  | cons s t ih =>
    intro hwf st
    obtain ⟨st1, hstep, hcount, _⟩ := procSale_wf s (hwf s (List.mem_cons_self s t)) st
    obtain ⟨st', hrun, hcount'⟩ := ih (fun x hx => hwf x (List.mem_cons_of_mem _ hx)) st1
    refine ⟨st', ?_, ?_⟩
    · rw [runSales] at hrun ⊢
      rw [foldlM_except_cons_ok t hstep]
      exact hrun
    · rw [hcount', hcount, List.countP_cons]
      cases hc : counted s <;> simp [hc] <;> omega

/-- On a fully counted well-shaped batch, the accumulated `item_revenue`
values sum to the raw `total_sales`. -/
theorem runSales_sum_eq_total (sales : List JVal)
    (hwf : ∀ s ∈ sales, wfSale s = true ∧ counted s = true) (st st' : AggState)
    (h : runSales sales st = .ok st')
    (hs : sumVals st.item_revenue = st.total_sales) :
    sumVals st'.item_revenue = st'.total_sales := by
  refine foldlM_ok_inv procSale (fun x => sumVals x.item_revenue = x.total_sales) sales
    ?_ st st' h hs
  intro a b hb c hab hp
  obtain ⟨st2, he, _, hformulas⟩ := procSale_wf b (hwf b hb).1 a
  rw [hab] at he
  injection he with he2
  obtain ⟨htot, hsum⟩ := hformulas (hwf b hb).2
  rw [he2, hsum, htot, hp]

/-! ### Python `max` with a key function -/

/-- Specification of the left fold behind `max(..., key=...)`: the result
is either the initial accumulator (when nothing beats it) or the first
list element that strictly exceeds the accumulator and everything before
it, with nothing after it exceeding it. -/
theorem foldl_maxStep_spec (l : List (JVal × ℚ)) :
    ∀ acc : JVal × ℚ,
      (l.foldl maxStep acc = acc ∧ ∀ q ∈ l, q.2 ≤ acc.2) ∨
      (∃ l₁ l₂, l = l₁ ++ (l.foldl maxStep acc) :: l₂ ∧
        acc.2 < (l.foldl maxStep acc).2 ∧
        (∀ q ∈ l₁, q.2 < (l.foldl maxStep acc).2) ∧
        (∀ q ∈ l₂, q.2 ≤ (l.foldl maxStep acc).2)) := by
  induction l with
  | nil =>
    intro acc
    exact Or.inl ⟨rfl, by simp⟩
  | cons x xs ih =>
    intro acc
    rw [List.foldl_cons]
    by_cases hx : acc.2 < x.2
    · have hstep : maxStep acc x = x := by rw [maxStep, if_pos hx]
      rw [hstep]
      rcases ih x with ⟨heq, hle⟩ | ⟨l₁, l₂, hdecomp, hlt, hbefore, hafter⟩
      · rw [heq]
        exact Or.inr ⟨[], xs, by simp, hx, by simp, hle⟩
      · refine Or.inr ⟨x :: l₁, l₂, by rw [List.cons_append, ← hdecomp], lt_trans hx hlt, ?_, hafter⟩
        intro q hq
        rcases List.mem_cons.mp hq with h1 | h2
        · rw [h1]; exact hlt
        · exact hbefore q h2
    · have hstep : maxStep acc x = acc := by rw [maxStep, if_neg hx]
      rw [hstep]
      rcases ih acc with ⟨heq, hle⟩ | ⟨l₁, l₂, hdecomp, hlt, hbefore, hafter⟩
      · refine Or.inl ⟨heq, ?_⟩
        intro q hq
        rcases List.mem_cons.mp hq with h1 | h2
        · rw [h1]; exact le_of_not_lt hx
        · exact hle q h2
      · refine Or.inr ⟨x :: l₁, l₂, by rw [List.cons_append, ← hdecomp], hlt, ?_, hafter⟩
        intro q hq
        rcases List.mem_cons.mp hq with h1 | h2
        · rw [h1]; exact lt_of_le_of_lt (le_of_not_lt hx) hlt
        · exact hbefore q h2

/-- `pyMaxKey` on a nonempty map returns the key of the first entry whose
revenue is maximal: everything before it is strictly smaller, everything
overall is `≤` it. -/
theorem pyMaxKey_first_max (m : List (JVal × ℚ)) (hne : m ≠ []) :
    ∃ p l₁ l₂, m = l₁ ++ p :: l₂ ∧ pyMaxKey m = some p.1 ∧
      (∀ q ∈ m, q.2 ≤ p.2) ∧ (∀ q ∈ l₁, q.2 < p.2) := by
  cases m with
  | nil => exact absurd rfl hne
  | cons h t =>
    rcases foldl_maxStep_spec t h with ⟨heq, hle⟩ | ⟨l₁, l₂, hdecomp, hlt, hbefore, hafter⟩
    · refine ⟨h, [], t, by simp, ?_, ?_, by simp⟩
      · rw [pyMaxKey, heq]
      · intro q hq
        rcases List.mem_cons.mp hq with h1 | h2
        · rw [h1]
        · exact hle q h2
    · refine ⟨t.foldl maxStep h, h :: l₁, l₂, by rw [List.cons_append, ← hdecomp], rfl, ?_, ?_⟩
      · intro q hq
        rcases List.mem_cons.mp hq with h1 | h2
        · rw [h1]; exact le_of_lt hlt
        · rw [hdecomp] at h2
          rcases List.mem_append.mp h2 with h3 | h4
          · exact le_of_lt (hbefore q h3)
          · rcases List.mem_cons.mp h4 with h5 | h6
            · rw [h5]
            · exact hafter q h6
      · intro q hq
        rcases List.mem_cons.mp hq with h1 | h2
        · rw [h1]; exact hlt
        · exact hbefore q h2

/-! ### The stable descending sort -/

theorem insertD_length (p : JVal × ℚ) (l : List (JVal × ℚ)) :
    (insertD p l).length = l.length + 1 := by
  induction l with
  | nil => rfl
  | cons q qs ih =>
    rw [insertD]
    split_ifs
    · rw [List.length_cons, ih, List.length_cons]
    · rfl

theorem sortD_length (l : List (JVal × ℚ)) : (sortD l).length = l.length := by
  induction l with
  | nil => rfl
  | cons x xs ih => rw [sortD, insertD_length, ih, List.length_cons]

theorem insertD_mem (p a : JVal × ℚ) (l : List (JVal × ℚ)) :
    a ∈ insertD p l ↔ a = p ∨ a ∈ l := by
  induction l with
  | nil => simp [insertD]
  | cons q qs ih =>
    rw [insertD]
    split_ifs
    · rw [List.mem_cons, ih, List.mem_cons]
      tauto
    · rw [List.mem_cons, List.mem_cons]

theorem insertD_sorted (p : JVal × ℚ) (l : List (JVal × ℚ))
    (h : l.Pairwise (fun a b => b.2 ≤ a.2)) :
    (insertD p l).Pairwise (fun a b => b.2 ≤ a.2) := by
  induction l with
  | nil => simp [insertD]
  | cons q qs ih =>
    rw [List.pairwise_cons] at h
    rw [insertD]
    split_ifs with hpq
    · rw [List.pairwise_cons]
      refine ⟨fun b hb => ?_, ih h.2⟩
      rcases (insertD_mem p b qs).mp hb with h1 | h2
      · rw [h1]; exact le_of_lt hpq
      · exact h.1 b h2
    · rw [List.pairwise_cons]
      refine ⟨fun b hb => ?_, List.pairwise_cons.mpr h⟩
      rcases List.mem_cons.mp hb with h1 | h2
      · rw [h1]; exact le_of_not_lt hpq
      · exact le_trans (h.1 b h2) (le_of_not_lt hpq)

theorem sortD_sorted (l : List (JVal × ℚ)) :
    (sortD l).Pairwise (fun a b => b.2 ≤ a.2) := by
  induction l with
  | nil => simp [sortD]
  | cons x xs ih => exact insertD_sorted x (sortD xs) ih

theorem filter_insertD_ne (p : JVal × ℚ) (r : ℚ) (l : List (JVal × ℚ)) (hne : ¬(p.2 = r)) :
    (insertD p l).filter (fun x => decide (x.2 = r)) = l.filter (fun x => decide (x.2 = r)) := by
  induction l with
  | nil => simp [insertD, hne]
  | cons q qs ih =>
    rw [insertD]
    split_ifs
    · rw [List.filter_cons, List.filter_cons]
      split_ifs <;> rw [ih]
    · rw [List.filter_cons]
      simp only [hne, decide_eq_true_eq, if_false, decide_False]
      simp [hne]

theorem filter_insertD_eq (p : JVal × ℚ) (r : ℚ) (l : List (JVal × ℚ)) (heq : p.2 = r) :
    (insertD p l).filter (fun x => decide (x.2 = r)) =
      p :: l.filter (fun x => decide (x.2 = r)) := by
  induction l with
  | nil => simp [insertD, heq]
  | cons q qs ih =>
    rw [insertD]
    split_ifs with hpq
    · have hqne : ¬(q.2 = r) := by
        intro hqr
        rw [heq] at hpq
        rw [hqr] at hpq
        exact lt_irrefl r hpq
      rw [List.filter_cons, if_neg (by simp [hqne]), ih, List.filter_cons,
        if_neg (by simp [hqne])]
    · rw [List.filter_cons, if_pos (by simp [heq])]

theorem sortD_filter_stable (l : List (JVal × ℚ)) (r : ℚ) :
    (sortD l).filter (fun x => decide (x.2 = r)) = l.filter (fun x => decide (x.2 = r)) := by
  induction l with
  | nil => rfl
  | cons x xs ih =>
    rw [sortD]
    by_cases hx : x.2 = r
    · rw [filter_insertD_eq x r (sortD xs) hx, ih, List.filter_cons, if_pos (by simp [hx])]
    · rw [filter_insertD_ne x r (sortD xs) hx, ih, List.filter_cons, if_neg (by simp [hx])]

/-! ### Round-half-to-even -/

theorem rhe_bounds (q : ℚ) : |(rhe q : ℚ) - q| ≤ 1/2 := by
  have h1 : (⌊q⌋ : ℚ) ≤ q := Int.floor_le q
  have h2 : q < ⌊q⌋ + 1 := Int.lt_floor_add_one q
  rw [rhe, Int.fract, abs_le]
  split_ifs with ha hb hc <;> constructor <;> push_cast <;> linarith

theorem round2_err (q : ℚ) : |round2 q - q| ≤ 1/200 := by
  have h := rhe_bounds (q * 100)
  rw [abs_le] at h
  rw [round2, abs_le]
  constructor <;> linarith

theorem round2_add_bound (a b : ℚ) :
    |round2 (a + b) - (round2 a + round2 b)| ≤ 1/100 := by
  have hX := rhe_bounds ((a + b) * 100)
  have hY := rhe_bounds (a * 100)
  have hZ := rhe_bounds (b * 100)
  rw [abs_le] at hX hY hZ
  have hup : rhe ((a + b) * 100) - rhe (a * 100) - rhe (b * 100) ≤ 1 := by
    by_contra hc
    push_neg at hc
    have h2 : (2 : ℤ) ≤ rhe ((a + b) * 100) - rhe (a * 100) - rhe (b * 100) := hc
    have h2q : (2 : ℚ) ≤ ((rhe ((a + b) * 100) : ℚ) - (rhe (a * 100) : ℚ) - (rhe (b * 100) : ℚ)) := by
      exact_mod_cast h2
    linarith
  have hdown : -1 ≤ rhe ((a + b) * 100) - rhe (a * 100) - rhe (b * 100) := by
    by_contra hc
    push_neg at hc
    have h2 : rhe ((a + b) * 100) - rhe (a * 100) - rhe (b * 100) ≤ -2 := by omega
    have h2q : ((rhe ((a + b) * 100) : ℚ) - (rhe (a * 100) : ℚ) - (rhe (b * 100) : ℚ)) ≤ -2 := by
      exact_mod_cast h2
    linarith
  have hupq : ((rhe ((a + b) * 100) : ℚ) - (rhe (a * 100) : ℚ) - (rhe (b * 100) : ℚ)) ≤ 1 := by
    exact_mod_cast hup
  have hdownq : (-1 : ℚ) ≤ ((rhe ((a + b) * 100) : ℚ) - (rhe (a * 100) : ℚ) - (rhe (b * 100) : ℚ)) := by
    exact_mod_cast hdown
  rw [round2, round2, round2, abs_le]
  constructor <;> linarith

theorem rhe_mono {x y : ℚ} (hxy : x ≤ y) : rhe x ≤ rhe y := by
  have hfl : ⌊x⌋ ≤ ⌊y⌋ := Int.floor_mono hxy
  rcases lt_or_eq_of_le hfl with hlt | heq
  · have hx1 : rhe x ≤ ⌊x⌋ + 1 := by
      rw [rhe]
      split_ifs <;> omega
    have hy1 : ⌊y⌋ ≤ rhe y := by
      rw [rhe]
      split_ifs <;> omega
    omega
  · have hfx : Int.fract x ≤ Int.fract y := by
      rw [Int.fract, Int.fract, heq]
      linarith
    rw [rhe, rhe, heq]
    split_ifs <;> first | omega | linarith | tauto

theorem round2_mono {x y : ℚ} (h : x ≤ y) : round2 x ≤ round2 y := by
  have h1 : rhe (x * 100) ≤ rhe (y * 100) := rhe_mono (by linarith)
  have h1q : ((rhe (x * 100) : ℚ)) ≤ (rhe (y * 100) : ℚ) := by exact_mod_cast h1
  rw [round2, round2]
  linarith

/-! ### Result extractors and concrete inputs used by the claim analysis -/

def resInvoice (r : Except PyErr Summary) : Option ℕ :=
  match r with
  | .ok s => some s.invoice_count
  | .error _ => none

def resTotal (r : Except PyErr Summary) : Option ℚ :=
  match r with
  | .ok s => some s.total_sales
  | .error _ => none

def resTopLen (r : Except PyErr Summary) : Option ℕ :=
  match r with
  | .ok s => some s.top_items.length
  | .error _ => none

def resTopStoreSentinel (r : Except PyErr Summary) : Option Bool :=
  match r with
  | .ok s => some (pyEq s.top_store (.str "data not available"))
  | .error _ => none

/-- A sale whose single item's price is a Mongo decimal-wrapper object. -/
def decimalWrapperSale : JVal :=
  .obj [("items", .list [.obj [("name", .str "W"),
    ("price", .obj [("$numberDecimal", .str "19.99")]), ("quantity", .int 2)]])]

/-- The same sale with the plain float price `19.99`. -/
def plainPriceSale : JVal :=
  .obj [("items", .list [.obj [("name", .str "W"),
    ("price", .float (1999/100)), ("quantity", .int 2)]])]

/-- A sale with `items` present but a zero computed total. -/
def zeroTotalSale : JVal :=
  .obj [("items", .list [.obj [("name", .str "A"),
    ("price", .int 0), ("quantity", .int 0)]])]

/-- A counted sale whose store is literally named like the sentinel. -/
def sentinelStoreSale : JVal :=
  .obj [("items", .list [.obj [("name", .str "A"),
    ("price", .int 1), ("quantity", .int 1)]]),
    ("storeLocation", .str "data not available")]

/-- One fully populated, well-shaped, counted sale. -/
def goodSale : JVal :=
  .obj [("items", .list [.obj [("name", .str "Widget"),
    ("price", .int 10), ("quantity", .int 2)]]),
    ("storeLocation", .str "NYC"), ("purchaseMethod", .str "Online"),
    ("couponUsed", .bool true)]

/-- The three-sale example batch of the specification. -/
def exampleSales : List JVal :=
  [goodSale,
   .obj [("items", .list [.obj [("name", .str "Widget"),
     ("price", .int 10), ("quantity", .int 1)]]),
     ("storeLocation", .str "NYC"), ("purchaseMethod", .str "In store")],
   .obj [("items", .list [.obj [("name", .str "Gadget"),
     ("price", .int 5), ("quantity", .int 3)]]),
     ("storeLocation", .str "LA"), ("purchaseMethod", .str "Online")]]

/-- The accumulator state reached on `exampleSales`. -/
def exampleState : AggState :=
  ⟨3, 45, 35, 10, 1,
   [(JVal.str "Widget", 30), (JVal.str "Gadget", 15)],
   [(JVal.str "NYC", 30), (JVal.str "LA", 15)]⟩

/-! ### Claim C1 -/

/-- C1 counterexample: the claim says a decimal-wrapper price
`{"$numberDecimal": "19.99"}` parses identically to the plain number
`19.99` and that a malformed price yields `0` without dropping the item.
On the code, `float` of a dict raises `TypeError`, the handler skips the
whole item, the sale total stays `0` and the sale itself is dropped:
invoice_count 0 and total 0, against 1 and 39.98 for the plain price. -/
theorem C1_cex :
    resInvoice (aggregate_sales (.list [decimalWrapperSale])) = some 0 ∧
    resTotal (aggregate_sales (.list [decimalWrapperSale])) = some 0 ∧
    resInvoice (aggregate_sales (.list [plainPriceSale])) = some 1 ∧
    resTotal (aggregate_sales (.list [plainPriceSale])) = some (1999/50) := by
  refine ⟨by decide, by decide, by decide, by decide⟩

/-- C1 (amended): a plain number price converts to its numeric value; a
price on which Python `float` raises — including any decimal-wrapper
object — causes that item to be skipped entirely (no revenue, no
`item_revenue` entry), without raising and without dropping the sale. -/
theorem C1_price_parsing :
    (∀ n : ℤ, pyFloat (.int n) = .ok (n : ℚ)) ∧
    (∀ q : ℚ, pyFloat (.float q) = .ok q) ∧
    (∀ ds : List (String × JVal), pyFloat (.obj ds) = .error .typeError) ∧
    (∀ (fs : List (String × JVal)) (acc : ℚ × List (JVal × ℚ)) (e : PyErr),
      pyFloat (objGet fs "price" (.int 0)) = .error e →
      procItem acc (.obj fs) = .ok acc) :=
  ⟨fun _ => rfl, fun _ => rfl, fun _ => rfl,
   fun fs acc e he => (procItem_skip fs acc (Or.inl ⟨e, he⟩)).1⟩

/-- C1 witness: the amended behaviour at the concrete decimal-wrapper
item. -/
theorem C1_price_parsing_witness :
    procItem (0, []) (.obj [("name", .str "W"),
      ("price", .obj [("$numberDecimal", .str "19.99")]), ("quantity", .int 2)]) =
      .ok (0, []) :=
  C1_price_parsing.2.2.2 _ (0, []) .typeError rfl

/-! ### Claim C2 -/

/-- C2 counterexample: the claim says every list input completes without
raising, whatever the shapes of its elements.  The list `[5]` reaches
`"items" not in 5`, which raises an uncaught `TypeError`. -/
theorem C2_cex : aggregate_sales (.list [.int 5]) = .error .typeError := rfl

/-- C2 (amended): a non-list body is rejected with the 400 error, and a
list whose elements are well-shaped sale records (dicts whose `items`
value, when present, is a list of dicts with hashable names, and whose
store location is hashable) always aggregates to a summary; malformed
numeric fields inside such records only degrade to skipped items. -/
theorem C2_shape_validation :
    (∀ v : JVal, isList v = false → aggregate_sales v = .error .badRequest) ∧
    (∀ sales : List JVal, (∀ s ∈ sales, wfSale s = true) →
      ∃ res, aggregate_sales (.list sales) = .ok res) := by
  constructor
  · intro v hv
    cases v with
    | list xs => exact absurd hv (by simp [isList])
    | null => rfl
    | bool b => rfl
    | int n => rfl
    | float q => rfl
    | str s => rfl
    | obj fs => rfl
  · intro sales hwf
    obtain ⟨st', hrun, _⟩ := runSales_wf sales hwf initState
    refine ⟨mkSummary st', ?_⟩
    rw [aggregate_sales]
    rw [show runAggregate (.list sales) = .ok st' from hrun]

/-- C2 witness: the amended behaviour at a non-list body and at a concrete
well-shaped batch. -/
theorem C2_shape_validation_witness :
    aggregate_sales (.int 3) = .error .badRequest ∧
    ∃ res, aggregate_sales (.list [goodSale]) = .ok res :=
  ⟨C2_shape_validation.1 (.int 3) rfl, C2_shape_validation.2 [goodSale] (by decide)⟩

/-! ### Claim C3 -/

/-- C3 counterexample: the claim says a sale with computed total `≤ 0` is
skipped entirely and that removing it leaves the output unchanged.  On
the code, its items are accumulated into `item_revenue` before the
total check, so `[zeroTotalSale]` yields `top_items` of length 1 while
the empty input yields length 0, although the sale is not counted. -/
theorem C3_cex :
    saleTotal zeroTotalSale ≤ 0 ∧
    resInvoice (aggregate_sales (.list [zeroTotalSale])) = some 0 ∧
    resTopLen (aggregate_sales (.list [zeroTotalSale])) = some 1 ∧
    resTopLen (aggregate_sales (.list [])) = some 0 := by
  refine ⟨by decide, by decide, by decide, by decide⟩

/-- C3 (amended): a falsy sale, or one without the `items` key, is skipped
with the whole state unchanged; a sale that is not counted (its
processing leaves `invoice_count` unchanged) leaves every accumulator
except `item_revenue` unchanged — but its parsed items do reach
`item_revenue`, so removing such a sale can change `top_items`. -/
theorem C3_skip_behavior :
    (∀ (st : AggState) (s : JVal), pyTruthy s = false → procSale st s = .ok st) ∧
    (∀ (st : AggState) (fs : List (String × JVal)),
      fs.any (fun f => f.1 == "items") = false → procSale st (.obj fs) = .ok st) ∧
    (∀ (st st' : AggState) (s : JVal), procSale st s = .ok st' →
      st'.invoice_count = st.invoice_count →
      ∃ irev, st' = { st with item_revenue := irev }) := by
  refine ⟨?_, ?_, ?_⟩
  · intro st s hs
    rw [procSale, if_neg (by rw [hs]; exact Bool.false_ne_true)]
  · intro st fs hkey
    rw [procSale]
    cases hfe : fs.isEmpty with
    | true => rw [if_neg (by simp [pyTruthy, hfe])]
    | false =>
      rw [if_pos (by simp [pyTruthy, hfe])]
      simp only [pyContainsItems, hkey]
  · intro st st' s h hcount
    rcases procSale_ok_cases st st' s h with h1 | ⟨items, tot, irev, hf, ⟨_, h2⟩ | ⟨_, k, ob, cb, h3⟩⟩
    · exact ⟨st.item_revenue, by rw [h1]⟩
    · exact ⟨irev, h2⟩
    · rw [h3] at hcount
      simp at hcount

/-- C3 witness: the amended behaviour at concrete skipped sales and at the
concrete zero-total sale. -/
theorem C3_skip_behavior_witness :
    procSale initState (.int 0) = .ok initState ∧
    procSale initState (.obj [("a", JVal.null)]) = .ok initState ∧
    ∃ irev, (⟨0, 0, 0, 0, 0, [(JVal.str "A", 0)], []⟩ : AggState) =
      { initState with item_revenue := irev } :=
  ⟨C3_skip_behavior.1 initState (.int 0) rfl,
   C3_skip_behavior.2.1 initState [("a", JVal.null)] rfl,
   C3_skip_behavior.2.2 initState ⟨0, 0, 0, 0, 0, [(JVal.str "A", 0)], []⟩
     zeroTotalSale rfl rfl⟩

/-! ### Claim C9 -/

/-- C9: an item whose price or quantity conversion fails does not raise,
contributes no revenue, and the remaining items of the sale are
processed exactly as if the malformed item were absent. -/
theorem C9_malformed_item (fs : List (String × JVal)) (acc : ℚ × List (JVal × ℚ))
    (l₁ l₂ : List JVal)
    (h : (∃ e, pyFloat (objGet fs "price" (.int 0)) = .error e) ∨
         (∃ e, pyInt (objGet fs "quantity" (.int 0)) = .error e)) :
    procItem acc (.obj fs) = .ok acc ∧
    (l₁ ++ .obj fs :: l₂).foldlM procItem acc = (l₁ ++ l₂).foldlM procItem acc :=
  ⟨(procItem_skip fs acc h).1,
   foldlM_skip procItem (.obj fs) (fun st => (procItem_skip fs st h).1) l₁ l₂ acc⟩

/-- C9 witness: the concrete malformed items `price: "abc"` and
`quantity: null` inside a sale with one further good item. -/
theorem C9_malformed_item_witness :
    (procItem (0, []) (.obj [("name", .str "B"), ("price", .str "abc"), ("quantity", .int 2)]) =
        .ok (0, []) ∧
      ([.obj [("name", .str "B"), ("price", .str "abc"), ("quantity", .int 2)],
        .obj [("name", .str "G"), ("price", .int 5), ("quantity", .int 3)]].foldlM
          procItem (0, []) =
        [.obj [("name", .str "G"), ("price", .int 5), ("quantity", .int 3)]].foldlM
          procItem (0, []))) ∧
    procItem (0, []) (.obj [("name", .str "B"), ("price", .int 5), ("quantity", JVal.null)]) =
      .ok (0, []) :=
  ⟨C9_malformed_item [("name", .str "B"), ("price", .str "abc"), ("quantity", .int 2)]
      (0, []) []
      [.obj [("name", .str "G"), ("price", .int 5), ("quantity", .int 3)]]
      (Or.inl ⟨.valueError, rfl⟩),
   (C9_malformed_item [("name", .str "B"), ("price", .int 5), ("quantity", JVal.null)]
      (0, []) [] [] (Or.inr ⟨.typeError, rfl⟩)).1⟩

/-! ### Claim C4 -/

/-- C4: on a list of well-shaped sale records, the returned
`invoice_count` is exactly the number of sales with a non-empty `items`
field and a strictly positive computed total. -/
theorem C4_invoice_count (sales : List JVal) (hwf : ∀ s ∈ sales, wfSale s = true)
    (res : Summary) (h : aggregate_sales (.list sales) = .ok res) :
    res.invoice_count = sales.countP counted := by
  obtain ⟨st', hrun, hcount⟩ := runSales_wf sales hwf initState
  rw [aggregate_sales, show runAggregate (.list sales) = .ok st' from hrun] at h
  injection h with h2
  rw [← h2]
  rw [show (mkSummary st').invoice_count = st'.invoice_count from rfl, hcount]
  exact Nat.zero_add _

/-- C4 witness: the specification's three-sale example batch, where all
three sales are counted. -/
theorem C4_invoice_count_witness :
    resInvoice (aggregate_sales (.list exampleSales)) = some 3 := by
  obtain ⟨st', hrun, _⟩ := runSales_wf exampleSales (by decide) initState
  have hagg : aggregate_sales (.list exampleSales) = .ok (mkSummary st') := by
    rw [aggregate_sales, show runAggregate (.list exampleSales) = .ok st' from hrun]
  have hc := C4_invoice_count exampleSales (by decide) (mkSummary st') hagg
  rw [hagg]
  rw [show resInvoice (.ok (mkSummary st')) = some (mkSummary st').invoice_count from rfl, hc]
  decide

/-! ### Claim C5 -/

/-- C5 counterexample: the claim's "if and only if" fails when a counted
sale's store is literally named `"data not available"`: then
`invoice_count = 1` and yet `top_store` is the sentinel string. -/
theorem C5_cex :
    resInvoice (aggregate_sales (.list [sentinelStoreSale])) = some 1 ∧
    resTopStoreSentinel (aggregate_sales (.list [sentinelStoreSale])) = some true := by
  refine ⟨by decide, by decide⟩

/-- C5 (amended): with no counted sale, `top_store` is the sentinel
`"data not available"` and no error is raised; with at least one counted
sale, `top_store` is a store key of maximal accumulated revenue (which
may itself coincide with the sentinel string, so the converse
implication fails only on that collision). -/
theorem C5_top_store (sales : List JVal) (st : AggState)
    (h : runAggregate (.list sales) = .ok st) :
    (st.invoice_count = 0 → (mkSummary st).top_store = .str "data not available") ∧
    (0 < st.invoice_count → ∃ p ∈ st.store_revenue,
      (mkSummary st).top_store = p.1 ∧ ∀ q ∈ st.store_revenue, q.2 ≤ p.2) := by
  have hinv : st.store_revenue = [] ↔ st.invoice_count = 0 :=
    runSales_store_count sales initState st h (by constructor <;> intro <;> rfl)
  constructor
  · intro hz
    have hsr : st.store_revenue = [] := hinv.mpr hz
    rw [show (mkSummary st).top_store =
      (match pyMaxKey st.store_revenue with
       | some k => k
       | none => JVal.str "data not available") from rfl, hsr]
    rfl
  · intro hpos
    have hne : st.store_revenue ≠ [] := by
      intro hnil
      rw [hinv.mp hnil] at hpos
      exact lt_irrefl 0 hpos
    obtain ⟨p, l₁, l₂, hdecomp, hmax, hall, _⟩ := pyMaxKey_first_max st.store_revenue hne
    refine ⟨p, ?_, ?_, hall⟩
    · rw [hdecomp]
      exact List.mem_append_right l₁ (List.mem_cons_self p l₂)
    · rw [show (mkSummary st).top_store =
        (match pyMaxKey st.store_revenue with
         | some k => k
         | none => JVal.str "data not available") from rfl, hmax]

/-- C5 witness: the amended behaviour on the empty batch and on one
counted sale. -/
theorem C5_top_store_witness :
    (mkSummary initState).top_store = .str "data not available" ∧
    ∃ p ∈ ([(JVal.str "NYC", (20 : ℚ))] : List (JVal × ℚ)),
      (mkSummary (⟨1, 20, 20, 0, 1, [(JVal.str "Widget", 20)], [(JVal.str "NYC", 20)]⟩ :
        AggState)).top_store = p.1 ∧
      ∀ q ∈ ([(JVal.str "NYC", (20 : ℚ))] : List (JVal × ℚ)), q.2 ≤ p.2 :=
  ⟨(C5_top_store [] initState rfl).1 rfl,
   (C5_top_store [goodSale]
     ⟨1, 20, 20, 0, 1, [(JVal.str "Widget", 20)], [(JVal.str "NYC", 20)]⟩
     rfl).2 (by decide)⟩

/-! ### Claim C6 -/

/-- C6: `top_items` has length `min 3 (number of distinct accumulated item
names)`, is sorted by revenue descending, and ties keep the insertion
(first-seen) order: for every revenue value, the sorted list restricted
to that value is exactly the accumulated list restricted to it. -/
theorem C6_top_items (sales : List JVal) (st : AggState)
    (h : runAggregate (.list sales) = .ok st) :
    (mkSummary st).top_items.length = min 3 st.item_revenue.length ∧
    NoDupKeys st.item_revenue ∧
    (mkSummary st).top_items.Pairwise (fun a b => b.2 ≤ a.2) ∧
    (∀ r : ℚ, (sortD st.item_revenue).filter (fun x => decide (x.2 = r)) =
      st.item_revenue.filter (fun x => decide (x.2 = r))) ∧
    (mkSummary st).top_items =
      ((sortD st.item_revenue).take 3).map (fun p => (p.1, round2 p.2)) := by
  refine ⟨?_, ?_, ?_, fun r => sortD_filter_stable st.item_revenue r, rfl⟩
  · rw [show (mkSummary st).top_items =
      ((sortD st.item_revenue).take 3).map (fun p => (p.1, round2 p.2)) from rfl]
    rw [List.length_map, List.length_take, sortD_length]
  · exact runSales_ndk sales initState st h (List.Pairwise.nil)
  · rw [show (mkSummary st).top_items =
      ((sortD st.item_revenue).take 3).map (fun p => (p.1, round2 p.2)) from rfl]
    refine List.Pairwise.map _ (fun a b hab => ?_)
      (List.Pairwise.sublist (List.take_sublist 3 (sortD st.item_revenue))
        (sortD_sorted st.item_revenue))
    exact round2_mono hab

/-- C6 witness: the example batch, with two distinct item names. -/
theorem C6_top_items_witness :
    (mkSummary exampleState).top_items.length = min 3 exampleState.item_revenue.length ∧
    NoDupKeys exampleState.item_revenue :=
  ⟨(C6_top_items exampleSales exampleState rfl).1,
   (C6_top_items exampleSales exampleState rfl).2.1⟩

/-! ### Claim C7 -/

/-- C7: the raw accumulators satisfy
`total_sales = online_sales + in_store_sales` exactly (each counted sale
goes to exactly one bucket), and the rounded outputs satisfy it to
within 0.01. -/
theorem C7_total_split (body : JVal) (st : AggState)
    (h : runAggregate body = .ok st) :
    st.total_sales = st.online_sales + st.in_store_sales ∧
    |(mkSummary st).total_sales -
      ((mkSummary st).online_sales + (mkSummary st).in_store_sales)| ≤ 1/100 := by
  cases body with
  | list sales =>
    have hraw : st.total_sales = st.online_sales + st.in_store_sales :=
      runSales_total_split sales initState st h rfl
    refine ⟨hraw, ?_⟩
    rw [show (mkSummary st).total_sales = round2 st.total_sales from rfl,
      show (mkSummary st).online_sales = round2 st.online_sales from rfl,
      show (mkSummary st).in_store_sales = round2 st.in_store_sales from rfl, hraw]
    exact round2_add_bound st.online_sales st.in_store_sales
  | null => exact Except.noConfusion h
  | bool b => exact Except.noConfusion h
  | int n => exact Except.noConfusion h
  | float q => exact Except.noConfusion h
  | str s => exact Except.noConfusion h
  | obj fs => exact Except.noConfusion h

/-- C7 witness: the example batch (45 = 35 + 10). -/
theorem C7_total_split_witness :
    exampleState.total_sales = exampleState.online_sales + exampleState.in_store_sales ∧
    |(mkSummary exampleState).total_sales -
      ((mkSummary exampleState).online_sales + (mkSummary exampleState).in_store_sales)| ≤
      1/100 :=
  C7_total_split (.list exampleSales) exampleState rfl

/-! ### Claim C8 -/

/-- C8: when every sale of a well-shaped batch is counted (has `items` and
a positive total), the accumulated `item_revenue` values sum exactly to
the raw `total_sales`, hence to the rounded output within half a cent. -/
theorem C8_item_revenue_total (sales : List JVal)
    (hwf : ∀ s ∈ sales, wfSale s = true ∧ counted s = true)
    (st : AggState) (h : runAggregate (.list sales) = .ok st) :
    sumVals st.item_revenue = st.total_sales ∧
    |sumVals st.item_revenue - (mkSummary st).total_sales| ≤ 1/200 := by
  have hsum : sumVals st.item_revenue = st.total_sales :=
    runSales_sum_eq_total sales hwf initState st h rfl
  refine ⟨hsum, ?_⟩
  rw [hsum, show (mkSummary st).total_sales = round2 st.total_sales from rfl,
    abs_sub_comm]
  exact round2_err st.total_sales

/-- C8 witness: the example batch (30 + 15 = 45). -/
theorem C8_item_revenue_total_witness :
    sumVals exampleState.item_revenue = exampleState.total_sales ∧
    |sumVals exampleState.item_revenue - (mkSummary exampleState).total_sales| ≤ 1/200 :=
  C8_item_revenue_total exampleSales (by decide) exampleState rfl

/-! ### Claim C10 -/

/-- C10: whenever any sale is counted, `top_store` is the key of the first
entry of `store_revenue` (insertion order = order of first contribution)
achieving the maximal revenue: everything before it is strictly smaller
and nothing exceeds it, so on ties the earliest-inserted store wins. -/
theorem C10_top_store_tie (sales : List JVal) (st : AggState)
    (h : runAggregate (.list sales) = .ok st) (hpos : 0 < st.invoice_count) :
    ∃ p l₁ l₂, st.store_revenue = l₁ ++ p :: l₂ ∧
      (mkSummary st).top_store = p.1 ∧
      (∀ q ∈ st.store_revenue, q.2 ≤ p.2) ∧
      (∀ q ∈ l₁, q.2 < p.2) := by
  have hinv : st.store_revenue = [] ↔ st.invoice_count = 0 :=
    runSales_store_count sales initState st h (by constructor <;> intro <;> rfl)
  have hne : st.store_revenue ≠ [] := by
    intro hnil
    rw [hinv.mp hnil] at hpos
    exact lt_irrefl 0 hpos
  obtain ⟨p, l₁, l₂, hdecomp, hmax, hall, hbefore⟩ := pyMaxKey_first_max st.store_revenue hne
  refine ⟨p, l₁, l₂, hdecomp, ?_, hall, hbefore⟩
  rw [show (mkSummary st).top_store =
    (match pyMaxKey st.store_revenue with
     | some k => k
     | none => JVal.str "data not available") from rfl, hmax]

/-- A batch with two stores tied at revenue 10; store `"A"` contributed
first. -/
def tieSales : List JVal :=
  [.obj [("items", .list [.obj [("name", .str "x"),
     ("price", .int 10), ("quantity", .int 1)]]),
     ("storeLocation", .str "A")],
   .obj [("items", .list [.obj [("name", .str "x"),
     ("price", .int 10), ("quantity", .int 1)]]),
     ("storeLocation", .str "B")]]

/-- The accumulator state reached on `tieSales`. -/
def tieState : AggState :=
  ⟨2, 20, 0, 20, 0, [(JVal.str "x", 20)], [(JVal.str "A", 10), (JVal.str "B", 10)]⟩

/-- C10 witness: on the concrete tied batch the characterisation holds
(and forces `top_store = "A"`, the first-inserted tied store). -/
theorem C10_top_store_tie_witness :
    ∃ p l₁ l₂, tieState.store_revenue = l₁ ++ p :: l₂ ∧
      (mkSummary tieState).top_store = p.1 ∧
      (∀ q ∈ tieState.store_revenue, q.2 ≤ p.2) ∧
      (∀ q ∈ l₁, q.2 < p.2) :=
  C10_top_store_tie tieSales tieState rfl (by decide)
